import Mathlib

/-!
Verification of the photo-frame ingestion pipeline.

The repository ships two revisions of the pipeline: the files `photoframe.py`
and `db.py` at the repository root (called the `root` variant below), and the
files `src/photoframe.py` and `src/db.py` (called the `srcv` variant).  The
two revisions differ in three places that matter here:

* the root `db.py` uses the name `os` in `remove_oldest_images` without
  importing it, so that function raises `NameError` whenever it has at least
  one file to delete;
* the root `download_images` has no inner handler for database errors, so a
  failed row insertion after a successful file write aborts the whole batch,
  while the `srcv` revision catches it and records the candidate as failed;
* the root `main` lets the circuit-breaker `SystemError` reach the top-level
  handler (exit 1, no watermark write), while the `srcv` revision catches it
  around `download_images` and still commits the watermark.

Everything else (topic filtering, extraction, chunking, the download loop,
eviction ordering) is identical between the two revisions and is modelled
once.  Machine integers do not overflow in any of the modelled code paths, so
timestamps and counters are plain naturals.  Network, filesystem and database
failures are injected through explicit oracles.
-/

namespace PhotoFrame

/-! ## Data model (models.py, db.py schema) -/

/-- A topic summary as decoded from the tag endpoint (models.TopicSummary).
Timestamps are modelled as naturals. -/
structure Topic where
  id : Nat
  title : String
  created_at : Nat
  bumped_at : Nat
deriving DecidableEq, Repr

/-- One parsed HTML element as enumerated by the extraction loop: the tag name
and the optional href / src attributes (the parsing primitive is external). -/
structure Element where
  tag : String
  href : Option String
  src : Option String
deriving DecidableEq, Repr

/-- A candidate image, the Python dict holding url and hash. -/
structure Candidate where
  url : String
  hash : String
deriving DecidableEq, Repr

/-- One row of the `images` table: integer primary key, unique hash, filename,
source url and download timestamp. -/
structure Row where
  id : Nat
  hash : String
  filename : String
  url : String
  downloadedAt : Nat
deriving DecidableEq, Repr

/-- The `images` table: rows in insertion order together with the next primary
key value. -/
structure Store where
  rows : List Row
  nextId : Nat
deriving DecidableEq, Repr

/-! ## State store operations (db.py) -/

/-- db.is_image_downloaded: true iff a row with the hash exists. -/
def is_image_downloaded (st : Store) (h : String) : Bool :=
  st.rows.any (fun r => r.hash == h)

/-- db.get_image_count: number of rows in the images table. -/
def get_image_count (st : Store) : Nat :=
  st.rows.length

/-- db.add_image: inserts one row; the UNIQUE constraint on hash makes the
insertion fail when the hash is already present. -/
def add_image (st : Store) (h fn u : String) (t : Nat) : Except Unit Store :=
  if st.rows.any (fun r => r.hash == h) then .error ()
  else .ok { rows := st.rows ++ [⟨st.nextId, h, fn, u, t⟩], nextId := st.nextId + 1 }

/-- Insertion step of a stable insertion sort on the download timestamp: the
new row is placed before the first element whose timestamp is not strictly
smaller, so rows with equal timestamps keep their relative (insertion) order.
This models the SELECT ... ORDER BY downloaded_at ASC over the table. -/
def insertByTime (x : Row) : List Row → List Row
  | [] => [x]
  | y :: ys => if y.downloadedAt < x.downloadedAt then y :: insertByTime x ys
               else x :: y :: ys

/-- Stable sort of the table by download timestamp (ORDER BY downloaded_at). -/
def isortTime : List Row → List Row
  | [] => []
  | x :: xs => insertByTime x (isortTime xs)

/-- Strict lexicographic order on (downloadedAt, id): the eviction order the
specification describes (oldest first, ties by row identifier ascending). -/
def lexLt (a b : Row) : Prop :=
  a.downloadedAt < b.downloadedAt ∨ (a.downloadedAt = b.downloadedAt ∧ a.id < b.id)

instance (a b : Row) : Decidable (lexLt a b) := by
  unfold lexLt; infer_instance

/-- Deleting the selected files one by one in order; `fsOk` tells whether
removing a given file succeeds.  Returns the filesystem afterwards, the list
of files actually removed (in order) and the first failing file, if any:
on a failure the loop stops, leaving later files untouched. -/
def deleteFilesLoop (fsOk : String → Bool) (fs : List String) :
    List String → List String × List String × Option String
  | [] => (fs, [], none)
  | f :: rest =>
    if fsOk f then
      let r := deleteFilesLoop fsOk (fs.erase f) rest
      (r.1, f :: r.2.1, r.2.2)
    else (fs, [], some f)

/-- Outcome of db.remove_oldest_images. -/
inductive EvictResult where
  /-- files deleted, then exactly the selected rows deleted, commit. -/
  | ok (st : Store) (fs : List String) (deleted : List String)
  /-- a file deletion failed: the OSError is re-raised, the DELETE never runs,
  so the rows are untouched; files before the failing one stay deleted. -/
  | fileError (st : Store) (fs : List String) (failed : String) (deleted : List String)
  /-- root db.py only: the name `os` is not defined in the module. -/
  | nameError (st : Store) (fs : List String)
deriving DecidableEq, Repr

/-- src/db.py remove_oldest_images: select the `count` rows first in the
ORDER BY downloaded_at order, delete their backing files one by one (stopping
at the first failure), then delete exactly the selected rows. -/
def remove_oldest_images (fsOk : String → Bool) (count : Nat)
    (st : Store) (fs : List String) : EvictResult :=
  match deleteFilesLoop fsOk fs
      (((isortTime st.rows).take count).map (fun r => r.filename)) with
  | (fs', ds, some f) => .fileError st fs' f ds
  | (fs', ds, none) =>
      .ok { rows := st.rows.filter (fun r =>
              !((((isortTime st.rows).take count).map (fun s => s.id)).contains r.id)),
            nextId := st.nextId } fs' ds

/-- The names bound at module level in the root db.py before
`remove_oldest_images` runs (its imports and module-level assignments).
Transcribed from the source; `os` is not among them. -/
def rootDbModuleNames : List String :=
  ["sqlite3", "datetime", "timezone", "Optional", "logging", "Path",
   "logger", "BASE_DIR", "db_path"]

/-- Python name resolution against a list of module-level bindings. -/
def resolvesName (names : List String) (n : String) : Bool :=
  names.contains n

/-- Root db.py remove_oldest_images: identical queries, but the body of the
file-deletion loop evaluates `os.path.join`, and resolving the name `os`
against the module namespace fails, raising NameError before anything is
deleted.  When there is no file to delete the loop body never runs and the
function behaves like the src revision. -/
def rootRemove_oldest_images (fsOk : String → Bool) (count : Nat)
    (st : Store) (fs : List String) : EvictResult :=
  match ((isortTime st.rows).take count).map (fun r => r.filename) with
  | [] =>
      .ok { rows := st.rows.filter (fun r =>
              !((((isortTime st.rows).take count).map (fun s => s.id)).contains r.id)),
            nextId := st.nextId } fs []
  | _ :: _ =>
    if resolvesName rootDbModuleNames "os" then
      match deleteFilesLoop fsOk fs
          (((isortTime st.rows).take count).map (fun r => r.filename)) with
      | (fs', ds, some f) => .fileError st fs' f ds
      | (fs', ds, none) =>
          .ok { rows := st.rows.filter (fun r =>
                  !((((isortTime st.rows).take count).map (fun s => s.id)).contains r.id)),
                nextId := st.nextId } fs' ds
    else .nameError st fs

/-- db.update_last_successful_fetch / db.get_last_successful_fetch operate on
a single persisted scalar; it is modelled as an optional natural. -/
def update_last_successful_fetch (_wm : Option Nat) (t : Nat) : Option Nat :=
  some t

/-! ## Content extraction (photoframe.py extract_original_images) -/

/-- Python word characters for the ASCII strings at hand (the regex \w). -/
def isWordChar (c : Char) : Bool :=
  c.isAlphanum || c == '_'

/-- Substring containment on strings (the Python `in` operator). -/
def strContains (hay needle : String) : Bool :=
  go hay.data needle.data
where
  go : List Char → List Char → Bool
    | [], n => n.isEmpty
    | c :: t, n => n.isPrefixOf (c :: t) || go t n

/-- The Python str.startswith. -/
def strStartsWith (s p : String) : Bool :=
  p.data.isPrefixOf s.data

/-- The regex search for /(\w{40})\.\w+$ : the url must end in a slash, then
exactly forty word characters, then a dot, then a nonempty run of word
characters; on a match the forty-character group is returned. -/
def matchHash (url : String) : Option String :=
  let r := url.data.reverse
  let ext := r.takeWhile isWordChar
  if ext.isEmpty then none
  else
    match r.drop ext.length with
    | '.' :: rest =>
        let h40 := rest.take 40
        if h40.length = 40 && h40.all isWordChar then
          match rest.drop 40 with
          | '/' :: _ => some (String.mk h40.reverse)
          | _ => none
        else none
    | _ => none

/-- Protocol-relative url normalization: a url beginning with // gets the
https scheme prepended. -/
def normalizeUrl (url : String) : String :=
  if strStartsWith url "//" then "https:" ++ url else url

/-- Python truthiness of `element.get('href') or element.get('src')`:
the empty string and a missing attribute are both falsy. -/
def elementUrl (e : Element) : Option String :=
  match e.href with
  | some s => if s.isEmpty then truthy e.src else some s
  | none => truthy e.src
where
  truthy : Option String → Option String
    | some s => if s.isEmpty then none else some s
    | none => none

/-- Appends a pair to the accumulator unless already present: the Python
set used for deduplication by the (url, hash) pair. -/
def insertCandidate (acc : List Candidate) (c : Candidate) : List Candidate :=
  if c ∈ acc then acc else acc ++ [c]

/-- The literal path segment that marks an original, unresized asset. -/
def originalSegment : String := "/default/original/"

/-- The body of the extraction loop once a truthy url has been read off the
element: keep it only when it contains the original-asset segment, normalize
the protocol-relative form and require the hash shape at the end. -/
def extractUrl (acc : List Candidate) (u : String) : List Candidate :=
  if strContains u originalSegment then
    match matchHash (normalizeUrl u) with
    | some h => insertCandidate acc ⟨normalizeUrl u, h⟩
    | none => acc
  else acc

/-- One iteration of the extraction loop over the parsed elements. -/
def extractStep (acc : List Candidate) (e : Element) : List Candidate :=
  if e.tag == "a" || e.tag == "img" then
    match elementUrl e with
    | some u => extractUrl acc u
    | none => acc
  else acc

/-- photoframe.extract_original_images.  The input is the result of the
external parse: `none` models a parse failure (in which case the except
handler returns an empty list), `some es` the enumerated a / img elements in
document order. -/
def extract_original_images (parsed : Option (List Element)) : List Candidate :=
  match parsed with
  | none => []
  | some es => es.foldl extractStep []

/-! ## Topic discovery (photoframe.py get_tagged_topics) -/

/-- The watermark filter inside get_tagged_topics: with a stored watermark the
topics are filtered to bumped_at strictly greater; with no watermark no
filtering takes place. -/
def filter_new_topics (topics : List Topic) (wm : Option Nat) : List Topic :=
  match wm with
  | some w => topics.filter (fun t => decide (w < t.bumped_at))
  | none => topics

/-- photoframe.get_tagged_topics after the request: a transport or decode
failure propagates; otherwise the decoded topics are filtered against the
watermark. -/
def get_tagged_topics (resp : Except Unit (List Topic)) (wm : Option Nat) :
    Except Unit (List Topic) :=
  match resp with
  | .error e => .error e
  | .ok topics => .ok (filter_new_topics topics wm)

/-! ## Batch processing (photoframe.py process_topics) -/

/-- Partition into contiguous chunks of at most n, in order (the Python list
slicing loop); the fuel argument bounds the number of iterations by the input
length, which suffices for any positive chunk size. -/
def chunkListAux (n : Nat) : Nat → List Topic → List (List Topic)
  | 0, _ => []
  | _, [] => []
  | fuel + 1, x :: xs => (x :: xs).take n :: chunkListAux n fuel ((x :: xs).drop n)

/-- topics[i : i + batch_size] chunking. -/
def chunkList (n : Nat) (l : List Topic) : List (List Topic) :=
  chunkListAux n l.length l

/-- photoframe.process_topics: per chunk and per topic, fetch the lead post
content (the oracle `contents`, where none stands for a fetch or parse
failure) and extract candidates, appending everything in order.  Per-topic
failures are caught inside the loop, so the function itself never fails. -/
def process_topics (batchSize : Nat) (contents : Nat → Option (List Element))
    (topics : List Topic) : List Candidate :=
  ((chunkList batchSize topics).map
    (fun chunk => chunk.map (fun t => extract_original_images (contents t.id)))).flatten.flatten

/-! ## Download manager (photoframe.py download_images) -/

/-- The two revisions of the pipeline present in the repository. -/
inductive Variant where
  | root
  | srcv
deriving DecidableEq, Repr

/-- Oracle outcome for one download attempt: full success; a network or
filesystem failure (requests exception or IOError before the row insert); or
a database failure after a successful file write. -/
inductive DLOutcome where
  | ok
  | netFail
  | dbFail
deriving DecidableEq, Repr

/-- Download-manager state: the images table and the set of files on disk. -/
structure DLState where
  store : Store
  fs : List String
deriving DecidableEq, Repr

/-- Result of download_images.  `done` is normal completion, `circuit` the
SystemError raised after three consecutive failures, `dbError` the root
revision letting a database error propagate, `evictError` an exception
escaping from remove_oldest_images. -/
inductive DLResult where
  | done (st : DLState) (failed : List Candidate)
  | circuit (st : DLState) (failed : List Candidate)
  | dbError (st : DLState) (failed : List Candidate)
  | evictError (st : DLState)
deriving DecidableEq, Repr

/-- Writing the response body to the target path: the file exists afterwards. -/
def writeFile (fs : List String) (fn : String) : List String :=
  if fs.contains fn then fs else fs ++ [fn]

/-- os.path.splitext applied to the url: the extension starts at the last dot
of the final path segment, unless every character before that dot in the
segment is itself a dot. -/
def splitextExt (url : String) : String :=
  let s := url.data
  let base := (s.reverse.takeWhile (fun c => c ≠ '/')).reverse
  let lead := (base.takeWhile (fun c => c = '.')).length
  let afterDot := base.reverse.takeWhile (fun c => c ≠ '.')
  if afterDot.length = base.length then ""
  else
    let dotIdx := base.length - afterDot.length - 1
    if dotIdx < lead then "" else String.mk (base.drop dotIdx)

/-- The derived target filename, hash plus original extension. -/
def candidateFilename (c : Candidate) : String :=
  c.hash ++ splitextExt c.url

/-- The per-candidate loop of download_images.  `i` indexes the outcome
oracle, `consec` is the consecutive-failure counter, `failed` the recorded
failures.  A network or filesystem failure records the candidate, increments
the counter and aborts with the circuit breaker once the counter reaches 3.
A success writes the file, inserts the row and resets the counter.  A
database failure after the file write is variant-dependent: the root revision
lets it propagate, the src revision records the candidate as failed without
touching the counter. -/
def downloadLoop (v : Variant) (o : Nat → DLOutcome) (now : Nat) :
    List Candidate → Nat → Nat → DLState → List Candidate → DLResult
  | [], _, _, st, failed => .done st failed
  | c :: cs, i, consec, st, failed =>
    match o i with
    | .netFail =>
        if consec + 1 ≥ 3 then .circuit st (failed ++ [c])
        else downloadLoop v o now cs (i + 1) (consec + 1) st (failed ++ [c])
    | .ok =>
        match add_image st.store c.hash (candidateFilename c) c.url now with
        | .ok store' =>
            downloadLoop v o now cs (i + 1) 0
              ⟨store', writeFile st.fs (candidateFilename c)⟩ failed
        | .error _ =>
            match v with
            | .root => .dbError ⟨st.store, writeFile st.fs (candidateFilename c)⟩ failed
            | .srcv => downloadLoop v o now cs (i + 1) consec
                ⟨st.store, writeFile st.fs (candidateFilename c)⟩ (failed ++ [c])
    | .dbFail =>
        match v with
        | .root => .dbError ⟨st.store, writeFile st.fs (candidateFilename c)⟩ failed
        | .srcv => downloadLoop v o now cs (i + 1) consec
            ⟨st.store, writeFile st.fs (candidateFilename c)⟩ (failed ++ [c])

/-- photoframe.download_images: filter to candidates not already downloaded,
return immediately when none are new, evict when the capacity would be
exceeded, then run the download loop.  The eviction routine is the one from
the revision's own db module. -/
def download_images (v : Variant) (limit now : Nat) (o : Nat → DLOutcome)
    (fsOk : String → Bool) (images : List Candidate) (st : DLState) : DLResult :=
  if (images.filter (fun img => !(is_image_downloaded st.store img.hash))).isEmpty then
    .done st []
  else
    if limit < get_image_count st.store +
        (images.filter (fun img => !(is_image_downloaded st.store img.hash))).length then
      match (match v with
             | .root => rootRemove_oldest_images fsOk
                 (get_image_count st.store +
                   (images.filter (fun (img : Candidate) =>
                     !(is_image_downloaded st.store img.hash))).length - limit) st.store st.fs
             | .srcv => remove_oldest_images fsOk
                 (get_image_count st.store +
                   (images.filter (fun (img : Candidate) =>
                     !(is_image_downloaded st.store img.hash))).length - limit) st.store st.fs) with
      | .ok store' fs' _ =>
          downloadLoop v o now
            (images.filter (fun img => !(is_image_downloaded st.store img.hash)))
            0 0 ⟨store', fs'⟩ []
      | .fileError store' fs' _ _ => .evictError ⟨store', fs'⟩
      | .nameError store' fs' => .evictError ⟨store', fs'⟩
    else
      downloadLoop v o now
        (images.filter (fun img => !(is_image_downloaded st.store img.hash))) 0 0 st []

/-! ## Run orchestrator (photoframe.py main) -/

/-- Whole-run state: the persisted watermark, the images table and the files
on disk. -/
structure PFState where
  watermark : Option Nat
  store : Store
  fs : List String
deriving DecidableEq, Repr

/-- The environment of one run: the decoded tag response (or its failure),
the per-topic parsed lead-post content, the download and filesystem oracles,
the configured capacity and batch size, and the clock reading used for the
download timestamps and the committed watermark. -/
structure RunEnv where
  resp : Except Unit (List Topic)
  contents : Nat → Option (List Element)
  outcome : Nat → DLOutcome
  fsOk : String → Bool
  imageLimit : Nat
  batchSize : Nat
  now : Nat

/-- How a run ended. -/
inductive RunExit where
  | committed
  | earlyNoTopics
  | earlyNoImages
  | abortDiscovery
  | abortDownload
deriving DecidableEq, Repr

/-- photoframe.main.  Discovery failure aborts before any mutation; no topics
or no candidates exit early without a watermark write; otherwise the download
phase runs and the watermark is committed afterwards.  The two revisions
differ on a tripped circuit breaker: the root main lets the SystemError reach
the top-level handler and exits without committing, the src main catches it
and still commits.  Any other exception escaping the download phase aborts
the run in both revisions. -/
def mainRun (v : Variant) (env : RunEnv) (st : PFState) : PFState × RunExit :=
  match get_tagged_topics env.resp st.watermark with
  | .error _ => (st, .abortDiscovery)
  | .ok topics =>
    if topics.isEmpty then (st, .earlyNoTopics)
    else
      if (process_topics env.batchSize env.contents topics).isEmpty then
        (st, .earlyNoImages)
      else
        match download_images v env.imageLimit env.now env.outcome env.fsOk
            (process_topics env.batchSize env.contents topics) ⟨st.store, st.fs⟩ with
        | .done dl _ =>
            (⟨update_last_successful_fetch st.watermark env.now, dl.store, dl.fs⟩, .committed)
        | .circuit dl _ =>
            match v with
            | .root => (⟨st.watermark, dl.store, dl.fs⟩, .abortDownload)
            | .srcv =>
                (⟨update_last_successful_fetch st.watermark env.now, dl.store, dl.fs⟩,
                 .committed)
        | .dbError dl _ => (⟨st.watermark, dl.store, dl.fs⟩, .abortDownload)
        | .evictError dl => (⟨st.watermark, dl.store, dl.fs⟩, .abortDownload)

/-- The condition under which one parsed element yields one candidate. -/
def producedBy (e : Element) (c : Candidate) : Prop :=
  (e.tag = "a" ∨ e.tag = "img") ∧
  ∃ v, elementUrl e = some v ∧ strContains v originalSegment = true ∧
    c.url = normalizeUrl v ∧ matchHash (normalizeUrl v) = some c.hash

/-! Concrete run data shared by the orchestrator witnesses: one topic bumped
past the watermark whose lead post yields three distinct original-asset
candidates. -/

def wHashA : String := "aaaaaaaaaaaaaaaaaaaaaaaaaaaaaaaaaaaaaaaa"

def wHashB : String := "bbbbbbbbbbbbbbbbbbbbbbbbbbbbbbbbbbbbbbbb"

def wHashC : String := "cccccccccccccccccccccccccccccccccccccccc"

def wUrl (h : String) : String := "https://host/default/original/1X/" ++ h ++ ".png"

def wTopic : Topic := ⟨1, "t", 0, 10⟩

def wContents : Nat → Option (List Element) := fun i =>
  if i = 1 then
    some [⟨"img", none, some (wUrl wHashA)⟩, ⟨"img", none, some (wUrl wHashB)⟩,
          ⟨"img", none, some (wUrl wHashC)⟩]
  else none

/-- A run environment whose download phase fails on every candidate: with
three candidates the circuit breaker trips. -/
def wEnv : RunEnv :=
  { resp := .ok [wTopic], contents := wContents, outcome := fun _ => .netFail,
    fsOk := fun _ => true, imageLimit := 10, batchSize := 20, now := 20 }

/-- The same run environment with every download succeeding. -/
def wEnvOk : RunEnv := { wEnv with outcome := fun _ => .ok }

def wState : PFState := ⟨some 5, ⟨[], 0⟩, []⟩

/-- The end state of the committed run used by the claim C8 witness. -/
def wStateDone : PFState :=
  ⟨some 20, ⟨[⟨0, wHashA, wHashA ++ ".png", wUrl wHashA, 20⟩,
      ⟨1, wHashB, wHashB ++ ".png", wUrl wHashB, 20⟩,
      ⟨2, wHashC, wHashC ++ ".png", wUrl wHashC, 20⟩], 3⟩,
    [wHashA ++ ".png", wHashB ++ ".png", wHashC ++ ".png"]⟩


/-- Unfolding equation of the loop on the empty list. -/
theorem downloadLoop_nil (v : Variant) (o : Nat → DLOutcome) (now : Nat)
    (i consec : Nat) (st : DLState) (failed : List Candidate) :
    downloadLoop v o now [] i consec st failed = .done st failed := rfl

/-- Unfolding equation of the loop on a nonempty list. -/
theorem downloadLoop_cons (v : Variant) (o : Nat → DLOutcome) (now : Nat)
    (c : Candidate) (cs : List Candidate) (i consec : Nat) (st : DLState)
    (failed : List Candidate) :
    downloadLoop v o now (c :: cs) i consec st failed =
      match o i with
      | .netFail =>
          if consec + 1 ≥ 3 then .circuit st (failed ++ [c])
          else downloadLoop v o now cs (i + 1) (consec + 1) st (failed ++ [c])
      | .ok =>
          match add_image st.store c.hash (candidateFilename c) c.url now with
          | .ok store' =>
              downloadLoop v o now cs (i + 1) 0
                ⟨store', writeFile st.fs (candidateFilename c)⟩ failed
          | .error _ =>
              match v with
              | .root => .dbError ⟨st.store, writeFile st.fs (candidateFilename c)⟩ failed
              | .srcv => downloadLoop v o now cs (i + 1) consec
                  ⟨st.store, writeFile st.fs (candidateFilename c)⟩ (failed ++ [c])
      | .dbFail =>
          match v with
          | .root => .dbError ⟨st.store, writeFile st.fs (candidateFilename c)⟩ failed
          | .srcv => downloadLoop v o now cs (i + 1) consec
              ⟨st.store, writeFile st.fs (candidateFilename c)⟩ (failed ++ [c]) := rfl

/-! ## Lemmas about the eviction sort -/

theorem insertByTime_perm (x : Row) (l : List Row) :
    (insertByTime x l).Perm (x :: l) := by
  induction l with
  | nil => simp [insertByTime]
  | cons y ys ih =>
    unfold insertByTime
    by_cases h : y.downloadedAt < x.downloadedAt
    · simp only [h, if_pos]
      exact ((ih.cons y).trans (List.Perm.swap x y ys))
    · simp [h]

theorem isortTime_perm (l : List Row) : (isortTime l).Perm l := by
  induction l with
  | nil => simp [isortTime]
  | cons x xs ih =>
    unfold isortTime
    exact (insertByTime_perm x (isortTime xs)).trans (ih.cons x)

theorem isortTime_length (l : List Row) : (isortTime l).length = l.length :=
  (isortTime_perm l).length_eq

theorem isortTime_mem (l : List Row) (r : Row) : r ∈ isortTime l ↔ r ∈ l :=
  (isortTime_perm l).mem_iff

theorem pairwise_lex_insertByTime (x : Row) (l : List Row)
    (hl : l.Pairwise lexLt) (hx : ∀ y ∈ l, x.id < y.id) :
    (insertByTime x l).Pairwise lexLt := by
  induction l with
  | nil => simp [insertByTime]
  | cons y ys ih =>
    unfold insertByTime
    by_cases h : y.downloadedAt < x.downloadedAt
    · simp only [h, if_pos, List.pairwise_cons]
      rcases List.pairwise_cons.mp hl with ⟨hy, hys⟩
      refine ⟨?_, ih hys (fun z hz => hx z (List.mem_cons_of_mem y hz))⟩
      intro z hz
      rcases List.mem_cons.mp ((insertByTime_perm x ys).mem_iff.mp hz) with hz' | hz'
      · subst hz'; exact Or.inl h
      · exact hy z hz'
    · simp only [h, if_neg, List.pairwise_cons]
      rcases List.pairwise_cons.mp hl with ⟨hy, _⟩
      constructor
      · intro z hzmem
        rcases List.mem_cons.mp hzmem with hz | hz
        · subst hz
          -- here z is the head: x is not later than it, smaller id on ties
          have hxy : x.downloadedAt ≤ z.downloadedAt := Nat.le_of_not_lt h
          rcases Nat.lt_or_ge x.downloadedAt z.downloadedAt with hlt | hge
          · exact Or.inl hlt
          · exact Or.inr ⟨Nat.le_antisymm hxy hge, hx z (List.mem_cons_self z ys)⟩
        · -- z comes after y in the sorted tail
          have hyz := hy z hz
          have hxy : x.downloadedAt ≤ y.downloadedAt := Nat.le_of_not_lt h
          have hyzle : y.downloadedAt ≤ z.downloadedAt := by
            rcases hyz with h1 | h1
            · exact Nat.le_of_lt h1
            · exact Nat.le_of_eq h1.1
          rcases Nat.lt_or_ge x.downloadedAt z.downloadedAt with hlt | hge
          · exact Or.inl hlt
          · exact Or.inr ⟨Nat.le_antisymm (Nat.le_trans hxy hyzle) hge,
              hx z (List.mem_cons_of_mem y hz)⟩
      · exact hl

theorem pairwise_lex_isortTime (l : List Row)
    (hid : l.Pairwise (fun a b => a.id < b.id)) :
    (isortTime l).Pairwise lexLt := by
  induction l with
  | nil => simp [isortTime]
  | cons x xs ih =>
    unfold isortTime
    rcases List.pairwise_cons.mp hid with ⟨hx, hxs⟩
    exact pairwise_lex_insertByTime x (isortTime xs) (ih hxs)
      (fun y hy => hx y ((isortTime_mem xs y).mp hy))

/-! ## Lemmas about file deletion and row removal -/

theorem deleteFilesLoop_all_ok (fsOk : String → Bool) (fs files : List String)
    (h : ∀ f ∈ files, fsOk f = true) :
    ∃ fs', deleteFilesLoop fsOk fs files = (fs', files, none) := by
  induction files generalizing fs with
  | nil => exact ⟨fs, rfl⟩
  | cons f rest ih =>
    have hf : fsOk f = true := h f (List.mem_cons_self f rest)
    rcases ih (fs.erase f) (fun g hg => h g (List.mem_cons_of_mem f hg)) with ⟨fs', hfs'⟩
    exact ⟨fs', by simp [deleteFilesLoop, hf, hfs']⟩

theorem deleteFilesLoop_first_failure (fsOk : String → Bool) (fs files : List String)
    (h : ∃ f ∈ files, fsOk f = false) :
    ∃ pre f post fs', files = pre ++ f :: post ∧ (∀ d ∈ pre, fsOk d = true) ∧
      fsOk f = false ∧ deleteFilesLoop fsOk fs files = (fs', pre, some f) := by
  induction files generalizing fs with
  | nil => simp at h
  | cons g rest ih =>
    by_cases hg : fsOk g = true
    · have hrest : ∃ f ∈ rest, fsOk f = false := by
        rcases h with ⟨f, hf, hff⟩
        rcases List.mem_cons.mp hf with rfl | hf'
        · exact absurd hg (by simp [hff])
        · exact ⟨f, hf', hff⟩
      rcases ih (fs.erase g) hrest with ⟨pre, f, post, fs', he, hpre, hff, hloop⟩
      refine ⟨g :: pre, f, post, fs', by simp [he], ?_, hff, ?_⟩
      · intro d hd
        rcases List.mem_cons.mp hd with rfl | hd'
        · exact hg
        · exact hpre d hd'
      · simp [deleteFilesLoop, hg, hloop]
    · refine ⟨[], g, rest, fs, by simp, by simp, by simpa using hg, ?_⟩
      simp [deleteFilesLoop, hg]

theorem id_injective_of_pairwise (rows : List Row)
    (hid : rows.Pairwise (fun a b => a.id < b.id)) :
    ∀ a ∈ rows, ∀ b ∈ rows, a.id = b.id → a = b := by
  induction rows with
  | nil => simp
  | cons x xs ih =>
    rcases List.pairwise_cons.mp hid with ⟨hx, hxs⟩
    intro a ha b hb hab
    rcases List.mem_cons.mp ha with rfl | ha' <;> rcases List.mem_cons.mp hb with rfl | hb'
    · rfl
    · exact absurd hab (Nat.ne_of_lt (hx b hb'))
    · exact absurd hab.symm (Nat.ne_of_lt (hx a ha'))
    · exact ih hxs a ha' b hb' hab

theorem mem_removeSelected (rows sel : List Row)
    (hsub : ∀ s ∈ sel, s ∈ rows)
    (hinj : ∀ a ∈ rows, ∀ b ∈ rows, a.id = b.id → a = b) (r : Row) :
    r ∈ rows.filter (fun r => !((sel.map (fun s => s.id)).contains r.id)) ↔
      r ∈ rows ∧ r ∉ sel := by
  rw [List.mem_filter]
  have hcont : ∀ (x : Nat) (l : List Nat), l.contains x = false ↔ x ∉ l := by
    intro x l; simp
  constructor
  · rintro ⟨hr, hc⟩
    rw [Bool.not_eq_true'] at hc
    exact ⟨hr, fun hrs => (hcont _ _).mp hc (List.mem_map_of_mem _ hrs)⟩
  · rintro ⟨hr, hrs⟩
    refine ⟨hr, ?_⟩
    rw [Bool.not_eq_true']
    refine (hcont _ _).mpr ?_
    intro hmem
    rcases List.mem_map.mp hmem with ⟨s, hs, hsid⟩
    exact hrs ((hinj s (hsub s hs) r hr hsid) ▸ hs)

theorem nodup_of_pairwise_id (rows : List Row)
    (hid : rows.Pairwise (fun a b => a.id < b.id)) : rows.Nodup :=
  hid.imp (fun h => by intro he; subst he; exact Nat.lt_irrefl _ h)

theorem removeSelected_length (rows : List Row) (n : Nat)
    (hid : rows.Pairwise (fun a b => a.id < b.id)) :
    (rows.filter (fun r =>
        !((((isortTime rows).take n).map (fun s => s.id)).contains r.id))).length =
      rows.length - n := by
  have hnd : rows.Nodup := nodup_of_pairwise_id rows hid
  have hperm := isortTime_perm rows
  have hsnd : (isortTime rows).Nodup := hperm.nodup_iff.mpr hnd
  have hsub : ∀ s ∈ (isortTime rows).take n, s ∈ rows := by
    intro s hs
    exact hperm.mem_iff.mp (List.mem_of_mem_take hs)
  have hinj := id_injective_of_pairwise rows hid
  have hfil : (rows.filter (fun r =>
      !((((isortTime rows).take n).map (fun s => s.id)).contains r.id))).Perm
        ((isortTime rows).drop n) := by
    apply (List.perm_ext_iff_of_nodup (List.Nodup.filter _ hnd)
      (hsnd.sublist (List.drop_sublist n _))).mpr
    intro r
    rw [mem_removeSelected rows _ hsub hinj r]
    constructor
    · rintro ⟨hr, hnt⟩
      have hrs : r ∈ isortTime rows := hperm.mem_iff.mpr hr
      rcases List.mem_append.mp ((List.take_append_drop n (isortTime rows)) ▸ hrs)
        with h1 | h1
      · exact absurd h1 hnt
      · exact h1
    · intro hr
      have hrs : r ∈ isortTime rows :=
        (List.drop_sublist n (isortTime rows)).mem hr
      refine ⟨hperm.mem_iff.mp hrs, fun hrt => ?_⟩
      have hdisj := List.disjoint_take_drop hsnd (Nat.le_refl n)
      exact hdisj hrt hr
  rw [hfil.length_eq, List.length_drop, isortTime_length]

/-- Claim C5: remove_oldest_images selects the n rows first in oldest-first
order with ties broken by ascending row id (formalised: the selection is the
n-element initial segment of a permutation of the table that is strictly
sorted by the (downloadedAt, id) pair), deletes their backing files first and
then deletes exactly those rows; and when some file deletion fails the error
is raised with the rows untouched and only the files before the failing one
deleted. -/
theorem evictOldest_spec (fsOk : String → Bool) (n : Nat) (st : Store)
    (fs : List String) (hid : st.rows.Pairwise (fun a b => a.id < b.id)) :
    ((isortTime st.rows).Perm st.rows ∧ (isortTime st.rows).Pairwise lexLt) ∧
    ((∀ f ∈ ((isortTime st.rows).take n).map (fun r => r.filename), fsOk f = true) →
      ∃ fs', remove_oldest_images fsOk n st fs =
        .ok { rows := st.rows.filter (fun r =>
                !((((isortTime st.rows).take n).map (fun s => s.id)).contains r.id)),
              nextId := st.nextId } fs'
          (((isortTime st.rows).take n).map (fun r => r.filename)) ∧
        (∀ r, r ∈ st.rows.filter (fun r =>
                !((((isortTime st.rows).take n).map (fun s => s.id)).contains r.id)) ↔
              r ∈ st.rows ∧ r ∉ (isortTime st.rows).take n)) ∧
    ((∃ f ∈ ((isortTime st.rows).take n).map (fun r => r.filename), fsOk f = false) →
      ∃ pre f post fs',
        ((isortTime st.rows).take n).map (fun r => r.filename) = pre ++ f :: post ∧
        (∀ d ∈ pre, fsOk d = true) ∧ fsOk f = false ∧
        remove_oldest_images fsOk n st fs = .fileError st fs' f pre) := by
  have hsub : ∀ s ∈ (isortTime st.rows).take n, s ∈ st.rows := by
    intro s hs
    exact (isortTime_perm st.rows).mem_iff.mp (List.mem_of_mem_take hs)
  refine ⟨⟨isortTime_perm st.rows, pairwise_lex_isortTime st.rows hid⟩, ?_, ?_⟩
  · intro hok
    rcases deleteFilesLoop_all_ok fsOk fs _ hok with ⟨fs', hloop⟩
    refine ⟨fs', ?_, ?_⟩
    · unfold remove_oldest_images
      simp only [hloop]
    · exact fun r => mem_removeSelected st.rows _ hsub
        (id_injective_of_pairwise st.rows hid) r
  · intro hbad
    rcases deleteFilesLoop_first_failure fsOk fs _ hbad with
      ⟨pre, f, post, fs', he, hpre, hff, hloop⟩
    refine ⟨pre, f, post, fs', he, hpre, hff, ?_⟩
    unfold remove_oldest_images
    simp only [hloop]

/-- Witness for claim C5 at a two-row table with equal timestamps: the row
with the smaller id is selected first, its file is deleted and exactly that
row is removed. -/
theorem evictOldest_spec_witness :
    ((isortTime [⟨0, "ha", "fa", "ua", 3⟩, ⟨1, "hb", "fb", "ub", 3⟩]).Perm
        [⟨0, "ha", "fa", "ua", 3⟩, ⟨1, "hb", "fb", "ub", 3⟩] ∧
      (isortTime [⟨0, "ha", "fa", "ua", 3⟩, ⟨1, "hb", "fb", "ub", 3⟩]).Pairwise lexLt) ∧
    ∃ fs', remove_oldest_images (fun _ => true) 1
        ⟨[⟨0, "ha", "fa", "ua", 3⟩, ⟨1, "hb", "fb", "ub", 3⟩], 2⟩ ["fa", "fb"] =
      .ok ⟨[⟨1, "hb", "fb", "ub", 3⟩], 2⟩ fs' ["fa"] := by
  have h := evictOldest_spec (fun _ => true) 1
    ⟨[⟨0, "ha", "fa", "ua", 3⟩, ⟨1, "hb", "fb", "ub", 3⟩], 2⟩ ["fa", "fb"]
    (by decide)
  refine ⟨h.1, ?_⟩
  rcases h.2.1 (by decide) with ⟨fs', hok, _⟩
  refine ⟨fs', ?_⟩
  rw [hok]
  congr 1

/-- Claim C10: in the root db.py the name os is not bound, so for a positive
count and a non-empty table remove_oldest_images raises NameError before
deleting any file or row; the src revision never raises NameError. -/
theorem rootEviction_nameError (fsOk : String → Bool) (n : Nat) (st : Store)
    (fs : List String) (hn : 1 ≤ n) (hne : st.rows ≠ []) :
    rootRemove_oldest_images fsOk n st fs = .nameError st fs ∧
    resolvesName rootDbModuleNames "os" = false ∧
    (∀ fsOk' n' st' fs' s2 f2,
      remove_oldest_images fsOk' n' st' fs' ≠ .nameError s2 f2) := by
  refine ⟨?_, by decide, ?_⟩
  · have hlen : (isortTime st.rows).length = st.rows.length := isortTime_length st.rows
    have hpos : 0 < st.rows.length := List.length_pos.mpr hne
    rcases hx : ((isortTime st.rows).take n).map (fun r => r.filename) with _ | ⟨x, xs⟩
    · exfalso
      have := congrArg List.length hx
      simp only [List.length_map, List.length_take, hlen, List.length_nil] at this
      omega
    · have hno : resolvesName rootDbModuleNames "os" = false := by decide
      unfold rootRemove_oldest_images
      rw [hx]
      simp [hno]
  · intro fsOk' n' st' fs' s2 f2
    unfold remove_oldest_images
    rcases hloop : deleteFilesLoop fsOk' fs' (((isortTime st'.rows).take n').map
      (fun r => r.filename)) with ⟨a, b, c⟩
    rw [hloop]
    cases c <;> simp

/-- Witness for claim C10: a single-row table with count 1 raises NameError,
leaving rows and files untouched. -/
theorem rootEviction_nameError_witness :
    rootRemove_oldest_images (fun _ => true) 1 ⟨[⟨0, "h0", "f0", "u0", 0⟩], 1⟩ ["f0"] =
      .nameError ⟨[⟨0, "h0", "f0", "u0", 0⟩], 1⟩ ["f0"] :=
  (rootEviction_nameError (fun _ => true) 1 ⟨[⟨0, "h0", "f0", "u0", 0⟩], 1⟩ ["f0"]
    (by decide) (by decide)).1

/-! ## Lemmas about extraction -/

theorem mem_insertCandidate (acc : List Candidate) (d c : Candidate) :
    c ∈ insertCandidate acc d ↔ c ∈ acc ∨ c = d := by
  unfold insertCandidate
  by_cases hd : d ∈ acc
  · rw [if_pos hd]
    constructor
    · exact Or.inl
    · rintro (h | rfl)
      · exact h
      · exact hd
  · rw [if_neg hd]
    simp

theorem nodup_insertCandidate (acc : List Candidate) (d : Candidate)
    (h : acc.Nodup) : (insertCandidate acc d).Nodup := by
  unfold insertCandidate
  by_cases hd : d ∈ acc
  · rw [if_pos hd]; exact h
  · rw [if_neg hd]
    simp [List.nodup_append, h, hd]

theorem mem_extractUrl (acc : List Candidate) (u : String) (c : Candidate) :
    c ∈ extractUrl acc u ↔
      c ∈ acc ∨ (strContains u originalSegment = true ∧
        c.url = normalizeUrl u ∧ matchHash (normalizeUrl u) = some c.hash) := by
  unfold extractUrl
  by_cases hseg : strContains u originalSegment = true
  · rw [if_pos hseg]
    rcases hm : matchHash (normalizeUrl u) with _ | h
    · constructor
      · exact Or.inl
      · rintro (hc | ⟨_, _, hch⟩)
        · exact hc
        · exact Option.noConfusion hch
    · rw [mem_insertCandidate]
      constructor
      · rintro (hc | rfl)
        · exact Or.inl hc
        · exact Or.inr ⟨hseg, rfl, rfl⟩
      · rintro (hc | ⟨_, hcu, hch⟩)
        · exact Or.inl hc
        · right
          injection hch with hh
          cases c
          simp_all
  · rw [if_neg hseg]
    constructor
    · exact Or.inl
    · rintro (hc | ⟨hwseg, _⟩)
      · exact hc
      · exact absurd hwseg hseg

theorem mem_extractStep (acc : List Candidate) (e : Element) (c : Candidate) :
    c ∈ extractStep acc e ↔ c ∈ acc ∨ producedBy e c := by
  unfold extractStep producedBy
  by_cases htag : (e.tag == "a" || e.tag == "img") = true
  · have htag' : e.tag = "a" ∨ e.tag = "img" := by
      rcases Bool.or_eq_true_iff.mp htag with h | h
      · exact Or.inl (by simpa using h)
      · exact Or.inr (by simpa using h)
    rw [if_pos htag]
    rcases hu : elementUrl e with _ | v
    · constructor
      · exact Or.inl
      · rintro (hc | ⟨_, w, hw, _⟩)
        · exact hc
        · exact Option.noConfusion hw
    · have hred : (match some v with
          | some u => extractUrl acc u
          | none => acc) = extractUrl acc v := rfl
      rw [hred, mem_extractUrl]
      constructor
      · rintro (hc | ⟨hseg, hcu, hch⟩)
        · exact Or.inl hc
        · exact Or.inr ⟨htag', v, rfl, hseg, hcu, hch⟩
      · rintro (hc | ⟨_, w, hw, hwseg, hcu, hch⟩)
        · exact Or.inl hc
        · injection hw with hvw
          subst hvw
          exact Or.inr ⟨hwseg, hcu, hch⟩
  · rw [if_neg htag]
    constructor
    · exact Or.inl
    · rintro (hc | ⟨htag', _⟩)
      · exact hc
      · rcases htag' with h | h <;> simp [h] at htag

theorem nodup_extractStep (acc : List Candidate) (e : Element)
    (h : acc.Nodup) : (extractStep acc e).Nodup := by
  unfold extractStep
  by_cases htag : (e.tag == "a" || e.tag == "img") = true
  · rw [if_pos htag]
    rcases elementUrl e with _ | v
    · exact h
    · show (extractUrl acc v).Nodup
      unfold extractUrl
      by_cases hseg : strContains v originalSegment = true
      · rw [if_pos hseg]
        rcases matchHash (normalizeUrl v) with _ | hh
        · exact h
        · exact nodup_insertCandidate acc _ h
      · rw [if_neg hseg]; exact h
  · rw [if_neg htag]; exact h

theorem mem_foldl_extractStep (es : List Element) (acc : List Candidate)
    (c : Candidate) :
    c ∈ es.foldl extractStep acc ↔ c ∈ acc ∨ ∃ e ∈ es, producedBy e c := by
  induction es generalizing acc with
  | nil => simp
  | cons e es ih =>
    rw [List.foldl_cons, ih, mem_extractStep]
    constructor
    · rintro ((hc | hp) | ⟨e', he', hp⟩)
      · exact Or.inl hc
      · exact Or.inr ⟨e, List.mem_cons_self e es, hp⟩
      · exact Or.inr ⟨e', List.mem_cons_of_mem e he', hp⟩
    · rintro (hc | ⟨e', he', hp⟩)
      · exact Or.inl (Or.inl hc)
      · rcases List.mem_cons.mp he' with rfl | he''
        · exact Or.inl (Or.inr hp)
        · exact Or.inr ⟨e', he'', hp⟩

theorem nodup_foldl_extractStep (es : List Element) (acc : List Candidate)
    (h : acc.Nodup) : (es.foldl extractStep acc).Nodup := by
  induction es generalizing acc with
  | nil => exact h
  | cons e es ih => exact ih _ (nodup_extractStep acc e h)

/-- Claim C6: extraction returns exactly the deduplicated candidates produced
by elements whose url contains the original-asset segment and whose trailing
segment is a forty-character word token followed by an extension at the end
of the string, with protocol-relative urls rewritten to https; a parse
failure yields the empty result.  The concrete conjuncts instantiate the
specification's examples: the protocol-relative url with a valid hash yields
exactly one normalized candidate, a url without the segment yields nothing,
and a thirty-nine-character hash segment yields nothing. -/
theorem extraction_spec :
    extract_original_images none = [] ∧
    (∀ es c, c ∈ extract_original_images (some es) ↔ ∃ e ∈ es, producedBy e c) ∧
    (∀ p, (extract_original_images p).Nodup) ∧
    extract_original_images (some [⟨"img", none,
        some "//cdn.example.com/default/original/1X/0123456789abcdef0123456789abcdef01234567.png"⟩]) =
      [⟨"https://cdn.example.com/default/original/1X/0123456789abcdef0123456789abcdef01234567.png",
        "0123456789abcdef0123456789abcdef01234567"⟩] ∧
    extract_original_images (some [⟨"img", none,
        some "https://cdn.example.com/uploads/0123456789abcdef0123456789abcdef01234567.png"⟩]) = [] ∧
    extract_original_images (some [⟨"img", none,
        some "https://cdn.example.com/default/original/1X/0123456789abcdef0123456789abcdef0123456.png"⟩]) = [] := by
  refine ⟨rfl, ?_, ?_, by decide, by decide, by decide⟩
  · intro es c
    rw [show extract_original_images (some es) = es.foldl extractStep [] from rfl,
      mem_foldl_extractStep]
    simp
  · intro p
    rcases p with _ | es
    · exact List.nodup_nil
    · exact nodup_foldl_extractStep es [] List.nodup_nil

/-- Claim C7: discovery returns exactly the decoded topics bumped strictly
after the watermark, a topic bumped exactly at the watermark is excluded,
and an absent watermark disables filtering entirely. -/
theorem discovery_watermark_filter :
    (∀ topics w t, t ∈ filter_new_topics topics (some w) ↔
        t ∈ topics ∧ w < t.bumped_at) ∧
    (∀ topics, filter_new_topics topics none = topics) ∧
    (∀ topics w t, t.bumped_at = w → t ∉ filter_new_topics topics (some w)) ∧
    (∀ tl wm, get_tagged_topics (.ok tl) wm = .ok (filter_new_topics tl wm)) ∧
    (∀ wm, get_tagged_topics (.error ()) wm = .error ()) := by
  refine ⟨?_, fun _ => rfl, ?_, fun _ _ => rfl, fun _ => rfl⟩
  · intro topics w t
    simp [filter_new_topics, List.mem_filter]
  · intro topics w t ht
    simp [filter_new_topics, List.mem_filter, ht]

/-- Witness for claim C7: a topic bumped exactly at the watermark is dropped
by the filter. -/
theorem discovery_watermark_filter_witness :
    (⟨1, "t", 0, 5⟩ : Topic) ∉ filter_new_topics [⟨1, "t", 0, 5⟩] (some 5) :=
  discovery_watermark_filter.2.2.1 [⟨1, "t", 0, 5⟩] 5 ⟨1, "t", 0, 5⟩ rfl

/-! ## Lemmas about the download loop -/

theorem is_image_downloaded_add (st : Store) (h fn u : String) (t : Nat)
    (store' : Store) (hadd : add_image st h fn u t = .ok store') (g : String) :
    is_image_downloaded store' g =
      (is_image_downloaded st g || (h == g)) := by
  unfold add_image at hadd
  split at hadd
  · cases hadd
  · cases hadd
    simp [is_image_downloaded, List.any_append]

theorem add_image_ok_of_not_downloaded (st : Store) (h fn u : String) (t : Nat)
    (hnot : is_image_downloaded st h = false) :
    add_image st h fn u t =
      .ok { rows := st.rows ++ [⟨st.nextId, h, fn, u, t⟩], nextId := st.nextId + 1 } := by
  unfold add_image
  rw [if_neg]
  intro hc
  rw [show st.rows.any (fun r => r.hash == h) = is_image_downloaded st h from rfl, hnot]
    at hc
  cases hc

theorem ne_append_cons_append (failed : List Candidate) (c : Candidate)
    (t : List Candidate) : failed ≠ (failed ++ [c]) ++ t := by
  intro h
  have h2 := congrArg List.length h
  simp only [List.length_append, List.length_cons, List.length_nil] at h2
  omega

/-- The network-failure step while the counter stays below the threshold. -/
theorem downloadLoop_netFail_cont (v : Variant) (o : Nat → DLOutcome) (now : Nat)
    (c : Candidate) (cs : List Candidate) (i consec : Nat) (st : DLState)
    (failed : List Candidate) (hoi : o i = .netFail) (hlt : consec + 1 < 3) :
    downloadLoop v o now (c :: cs) i consec st failed =
      downloadLoop v o now cs (i + 1) (consec + 1) st (failed ++ [c]) := by
  rw [downloadLoop_cons, hoi, if_neg (by omega : ¬ consec + 1 ≥ 3)]

/-- The network-failure step that reaches the threshold: the circuit breaker
trips with the state untouched and later candidates unattempted. -/
theorem downloadLoop_netFail_trip (v : Variant) (o : Nat → DLOutcome) (now : Nat)
    (c : Candidate) (cs : List Candidate) (i consec : Nat) (st : DLState)
    (failed : List Candidate) (hoi : o i = .netFail) (hge : 3 ≤ consec + 1) :
    downloadLoop v o now (c :: cs) i consec st failed = .circuit st (failed ++ [c]) := by
  rw [downloadLoop_cons, hoi, if_pos (by omega : consec + 1 ≥ 3)]

/-- The full-success step: file written, row inserted, counter reset. -/
theorem downloadLoop_ok_step (v : Variant) (o : Nat → DLOutcome) (now : Nat)
    (c : Candidate) (cs : List Candidate) (i consec : Nat) (st : DLState)
    (failed : List Candidate) (store' : Store) (hoi : o i = .ok)
    (hadd : add_image st.store c.hash (candidateFilename c) c.url now = .ok store') :
    downloadLoop v o now (c :: cs) i consec st failed =
      downloadLoop v o now cs (i + 1) 0
        ⟨store', writeFile st.fs (candidateFilename c)⟩ failed := by
  rw [downloadLoop_cons, hoi, hadd]

/-- The database-failure step in the src revision: the file stays on disk,
the candidate is recorded as failed, the counter is untouched and the loop
continues. -/
theorem downloadLoop_dbFail_srcv (o : Nat → DLOutcome) (now : Nat)
    (c : Candidate) (cs : List Candidate) (i consec : Nat) (st : DLState)
    (failed : List Candidate) (hoi : o i = .dbFail) :
    downloadLoop .srcv o now (c :: cs) i consec st failed =
      downloadLoop .srcv o now cs (i + 1) consec
        ⟨st.store, writeFile st.fs (candidateFilename c)⟩ (failed ++ [c]) := by
  rw [downloadLoop_cons, hoi]

/-- The database-failure step in the root revision: the error propagates and
the batch aborts. -/
theorem downloadLoop_dbFail_root (o : Nat → DLOutcome) (now : Nat)
    (c : Candidate) (cs : List Candidate) (i consec : Nat) (st : DLState)
    (failed : List Candidate) (hoi : o i = .dbFail) :
    downloadLoop .root o now (c :: cs) i consec st failed =
      .dbError ⟨st.store, writeFile st.fs (candidateFilename c)⟩ failed := by
  rw [downloadLoop_cons, hoi]

theorem downloadLoop_done_failed_extends (v : Variant) (o : Nat → DLOutcome)
    (now : Nat) (cs : List Candidate) :
    ∀ (i consec : Nat) (st : DLState) (failed : List Candidate)
      (st' : DLState) (failed' : List Candidate),
      downloadLoop v o now cs i consec st failed = .done st' failed' →
      ∃ t, failed' = failed ++ t := by
  induction cs with
  | nil =>
    intro i consec st failed st' failed' heq
    rw [downloadLoop_nil] at heq
    injection heq with _ h2
    exact ⟨[], by simp [h2.symm]⟩
  | cons c cs ih =>
    intro i consec st failed st' failed' heq
    rw [downloadLoop_cons] at heq
    split at heq
    · -- network failure
      split at heq
      · cases heq
      · rcases ih _ _ _ _ _ _ heq with ⟨t, ht⟩
        exact ⟨c :: t, by simp [ht]⟩
    · -- network success
      split at heq
      · rcases ih _ _ _ _ _ _ heq with ⟨t, ht⟩
        exact ⟨t, ht⟩
      · split at heq
        · cases heq
        · rcases ih _ _ _ _ _ _ heq with ⟨t, ht⟩
          exact ⟨c :: t, by simp [ht]⟩
    · -- database failure after file write
      split at heq
      · cases heq
      · rcases ih _ _ _ _ _ _ heq with ⟨t, ht⟩
        exact ⟨c :: t, by simp [ht]⟩

theorem downloadLoop_done_store_mono (v : Variant) (o : Nat → DLOutcome)
    (now : Nat) (cs : List Candidate) :
    ∀ (i consec : Nat) (st : DLState) (failed : List Candidate)
      (st' : DLState) (failed' : List Candidate) (g : String),
      downloadLoop v o now cs i consec st failed = .done st' failed' →
      is_image_downloaded st.store g = true →
      is_image_downloaded st'.store g = true := by
  induction cs with
  | nil =>
    intro i consec st failed st' failed' g heq hg
    rw [downloadLoop_nil] at heq
    injection heq with h1 _
    rw [h1] at hg
    exact hg
  | cons c cs ih =>
    intro i consec st failed st' failed' g heq hg
    rw [downloadLoop_cons] at heq
    split at heq
    · split at heq
      · cases heq
      · exact ih _ _ _ _ _ _ g heq hg
    · split at heq
      · next store' hadd =>
        refine ih _ _ _ _ _ _ g heq ?_
        rw [is_image_downloaded_add st.store c.hash _ _ now store' hadd g, hg]
        rfl
      · split at heq
        · cases heq
        · exact ih _ _ _ _ _ _ g heq hg
    · split at heq
      · cases heq
      · exact ih _ _ _ _ _ _ g heq hg

theorem downloadLoop_done_nofail_added (v : Variant) (o : Nat → DLOutcome)
    (now : Nat) (cs : List Candidate) :
    ∀ (i consec : Nat) (st : DLState) (failed : List Candidate) (st' : DLState),
      downloadLoop v o now cs i consec st failed = .done st' failed →
      ∀ c ∈ cs, is_image_downloaded st'.store c.hash = true := by
  induction cs with
  | nil => intro _ _ _ _ _ _ c hc; cases hc
  | cons c cs ih =>
    intro i consec st failed st' heq d hd
    rw [downloadLoop_cons] at heq
    split at heq
    · split at heq
      · cases heq
      · rcases downloadLoop_done_failed_extends v o now cs _ _ _ _ _ _ heq with ⟨t, ht⟩
        exact absurd ht (ne_append_cons_append failed c t)
    · split at heq
      · next store' hadd =>
        rcases List.mem_cons.mp hd with rfl | hd'
        · refine downloadLoop_done_store_mono v o now cs _ _ _ _ _ _ _ heq ?_
          rw [is_image_downloaded_add st.store d.hash _ _ now store' hadd d.hash]
          simp
        · exact ih _ _ _ _ _ heq d hd'
      · split at heq
        · cases heq
        · rcases downloadLoop_done_failed_extends _ o now cs _ _ _ _ _ _ heq with ⟨t, ht⟩
          exact absurd ht (ne_append_cons_append failed c t)
    · split at heq
      · cases heq
      · rcases downloadLoop_done_failed_extends _ o now cs _ _ _ _ _ _ heq with ⟨t, ht⟩
        exact absurd ht (ne_append_cons_append failed c t)

theorem downloadLoop_all_ok (v : Variant) (o : Nat → DLOutcome) (now : Nat)
    (cs : List Candidate) :
    ∀ (i consec : Nat) (st : DLState) (failed : List Candidate),
      (∀ j, j < cs.length → o (i + j) = .ok) →
      (cs.map (fun c => c.hash)).Nodup →
      (∀ c ∈ cs, is_image_downloaded st.store c.hash = false) →
      ∃ st', downloadLoop v o now cs i consec st failed = .done st' failed ∧
        st'.store.rows.length = st.store.rows.length + cs.length := by
  induction cs with
  | nil =>
    intro i consec st failed _ _ _
    exact ⟨st, downloadLoop_nil v o now i consec st failed, by simp⟩
  | cons c cs ih =>
    intro i consec st failed ho hnd hnew
    have hoi : o i = .ok := by
      have := ho 0 (by simp)
      simpa using this
    have hc : is_image_downloaded st.store c.hash = false :=
      hnew c (List.mem_cons_self c cs)
    have hadd := add_image_ok_of_not_downloaded st.store c.hash
      (candidateFilename c) c.url now hc
    have hnd' : (cs.map (fun c => c.hash)).Nodup := (List.nodup_cons.mp hnd).2
    have hch : c.hash ∉ cs.map (fun c => c.hash) := (List.nodup_cons.mp hnd).1
    have hnew' : ∀ d ∈ cs, is_image_downloaded
        ({ rows := st.store.rows ++ [⟨st.store.nextId, c.hash, candidateFilename c,
            c.url, now⟩], nextId := st.store.nextId + 1 } : Store) d.hash = false := by
      intro d hd
      have h1 : is_image_downloaded st.store d.hash = false := hnew d (List.mem_cons_of_mem c hd)
      have h2 : c.hash ≠ d.hash := by
        intro he
        exact hch (he ▸ List.mem_map_of_mem (fun c => c.hash) hd)
      simp only [is_image_downloaded, List.any_append, Bool.or_eq_false_iff] at h1 ⊢
      refine ⟨h1, by simp [h2]⟩
    have ho' : ∀ j, j < cs.length → o (i + 1 + j) = .ok := by
      intro j hj
      have := ho (j + 1) (by simp only [List.length_cons]; omega)
      rw [show i + (j + 1) = i + 1 + j by omega] at this
      exact this
    rcases ih (i + 1) 0 ⟨{ rows := st.store.rows ++ [⟨st.store.nextId, c.hash,
        candidateFilename c, c.url, now⟩], nextId := st.store.nextId + 1 },
        writeFile st.fs (candidateFilename c)⟩ failed ho' hnd' hnew' with ⟨st', hst', hlen⟩
    refine ⟨st', ?_, ?_⟩
    · rw [downloadLoop_ok_step v o now c cs i consec st failed _ hoi hadd]
      exact hst'
    · rw [hlen]
      simp only [List.length_append, List.length_cons, List.length_nil]
      omega

/-! ## Unfolding lemmas for download_images -/

theorem download_images_eq_noop (v : Variant) (limit now : Nat) (o : Nat → DLOutcome)
    (fsOk : String → Bool) (images : List Candidate) (st : DLState)
    (hall : ∀ c ∈ images, is_image_downloaded st.store c.hash = true) :
    download_images v limit now o fsOk images st = .done st [] := by
  have hfil : images.filter (fun img => !(is_image_downloaded st.store img.hash)) = [] := by
    rw [List.filter_eq_nil_iff]
    intro a ha
    simp [hall a ha]
  unfold download_images
  rw [hfil]
  rfl

theorem download_images_eq_loop (v : Variant) (limit now : Nat) (o : Nat → DLOutcome)
    (fsOk : String → Bool) (images : List Candidate) (st : DLState)
    (hne : images.filter (fun img => !(is_image_downloaded st.store img.hash)) ≠ [])
    (hcap : ¬ (limit < get_image_count st.store +
      (images.filter (fun img => !(is_image_downloaded st.store img.hash))).length)) :
    download_images v limit now o fsOk images st =
      downloadLoop v o now
        (images.filter (fun img => !(is_image_downloaded st.store img.hash))) 0 0 st [] := by
  unfold download_images
  rw [if_neg (by simpa [List.isEmpty_iff] using hne), if_neg hcap]

theorem download_images_eq_evict_srcv (limit now : Nat) (o : Nat → DLOutcome)
    (fsOk : String → Bool) (images : List Candidate) (st : DLState)
    (storeEv : Store) (fsEv ds : List String)
    (hne : images.filter (fun img => !(is_image_downloaded st.store img.hash)) ≠ [])
    (hover : limit < get_image_count st.store +
      (images.filter (fun img => !(is_image_downloaded st.store img.hash))).length)
    (hrm : remove_oldest_images fsOk
        (get_image_count st.store +
          (images.filter (fun img => !(is_image_downloaded st.store img.hash))).length
          - limit) st.store st.fs = .ok storeEv fsEv ds) :
    download_images .srcv limit now o fsOk images st =
      downloadLoop .srcv o now
        (images.filter (fun img => !(is_image_downloaded st.store img.hash)))
        0 0 ⟨storeEv, fsEv⟩ [] := by
  unfold download_images
  rw [if_neg (by simpa [List.isEmpty_iff] using hne), if_pos hover, hrm]

/-! ## Claim C3: the consecutive-failure circuit breaker -/

/-- Claim C3: each network or filesystem failure records the candidate as
failed, increments the consecutive-failure counter and continues; a success
resets the counter; the batch aborts with the circuit breaker exactly when
the counter reaches 3.  In particular three consecutive failures abort with
the state untouched and the fourth candidate unattempted, while two failures,
a success and three more failures abort only at the final failure, after
every candidate has been attempted. -/
theorem circuit_breaker_spec (v : Variant) :
    (∀ (o : Nat → DLOutcome) (now : Nat) (c : Candidate) (cs : List Candidate)
        (i consec : Nat) (st : DLState) (failed : List Candidate),
      o i = .netFail → consec + 1 < 3 →
      downloadLoop v o now (c :: cs) i consec st failed =
        downloadLoop v o now cs (i + 1) (consec + 1) st (failed ++ [c])) ∧
    (∀ (o : Nat → DLOutcome) (now : Nat) (c : Candidate) (cs : List Candidate)
        (i consec : Nat) (st : DLState) (failed : List Candidate),
      o i = .netFail → 3 ≤ consec + 1 →
      downloadLoop v o now (c :: cs) i consec st failed = .circuit st (failed ++ [c])) ∧
    (∀ (o : Nat → DLOutcome) (now : Nat) (c : Candidate) (cs : List Candidate)
        (i consec : Nat) (st : DLState) (failed : List Candidate) (store' : Store),
      o i = .ok →
      add_image st.store c.hash (candidateFilename c) c.url now = .ok store' →
      downloadLoop v o now (c :: cs) i consec st failed =
        downloadLoop v o now cs (i + 1) 0
          ⟨store', writeFile st.fs (candidateFilename c)⟩ failed) ∧
    (∀ (limit now : Nat) (o : Nat → DLOutcome) (fsOk : String → Bool)
        (c1 c2 c3 c4 : Candidate) (st : DLState),
      (∀ c ∈ [c1, c2, c3, c4], is_image_downloaded st.store c.hash = false) →
      ¬ (limit < get_image_count st.store + 4) →
      o 0 = .netFail → o 1 = .netFail → o 2 = .netFail →
      download_images v limit now o fsOk [c1, c2, c3, c4] st = .circuit st [c1, c2, c3]) ∧
    (∀ (limit now : Nat) (o : Nat → DLOutcome) (fsOk : String → Bool)
        (c1 c2 c3 c4 c5 c6 : Candidate) (st : DLState) (store' : Store),
      (∀ c ∈ [c1, c2, c3, c4, c5, c6], is_image_downloaded st.store c.hash = false) →
      ¬ (limit < get_image_count st.store + 6) →
      o 0 = .netFail → o 1 = .netFail → o 2 = .ok →
      o 3 = .netFail → o 4 = .netFail → o 5 = .netFail →
      add_image st.store c3.hash (candidateFilename c3) c3.url now = .ok store' →
      download_images v limit now o fsOk [c1, c2, c3, c4, c5, c6] st =
        .circuit ⟨store', writeFile st.fs (candidateFilename c3)⟩ [c1, c2, c4, c5, c6]) := by
  refine ⟨downloadLoop_netFail_cont v, downloadLoop_netFail_trip v,
    downloadLoop_ok_step v, ?_, ?_⟩
  · intro limit now o fsOk c1 c2 c3 c4 st hnew hcap h0 h1 h2
    have hfil : [c1, c2, c3, c4].filter
        (fun img => !(is_image_downloaded st.store img.hash)) = [c1, c2, c3, c4] := by
      rw [List.filter_eq_self]
      intro a ha
      simp [hnew a ha]
    rw [download_images_eq_loop v limit now o fsOk [c1, c2, c3, c4] st
      (by rw [hfil]; simp) (by rw [hfil]; simpa using hcap), hfil]
    rw [downloadLoop_netFail_cont v o now c1 [c2, c3, c4] 0 0 st [] h0 (by omega)]
    rw [downloadLoop_netFail_cont v o now c2 [c3, c4] (0 + 1) (0 + 1) st ([] ++ [c1])
      h1 (by omega)]
    rw [downloadLoop_netFail_trip v o now c3 [c4] (0 + 1 + 1) (0 + 1 + 1) st
      (([] ++ [c1]) ++ [c2]) h2 (by omega)]
    simp
  · intro limit now o fsOk c1 c2 c3 c4 c5 c6 st store' hnew hcap h0 h1 h2 h3 h4 h5 hadd
    have hfil : [c1, c2, c3, c4, c5, c6].filter
        (fun img => !(is_image_downloaded st.store img.hash)) = [c1, c2, c3, c4, c5, c6] := by
      rw [List.filter_eq_self]
      intro a ha
      simp [hnew a ha]
    rw [download_images_eq_loop v limit now o fsOk [c1, c2, c3, c4, c5, c6] st
      (by rw [hfil]; simp) (by rw [hfil]; simpa using hcap), hfil]
    rw [downloadLoop_netFail_cont v o now c1 [c2, c3, c4, c5, c6] 0 0 st [] h0 (by omega)]
    rw [downloadLoop_netFail_cont v o now c2 [c3, c4, c5, c6] (0 + 1) (0 + 1) st
      ([] ++ [c1]) h1 (by omega)]
    rw [downloadLoop_ok_step v o now c3 [c4, c5, c6] (0 + 1 + 1) (0 + 1 + 1) st
      (([] ++ [c1]) ++ [c2]) store' h2 hadd]
    rw [downloadLoop_netFail_cont v o now c4 [c5, c6] (0 + 1 + 1 + 1) 0
      ⟨store', writeFile st.fs (candidateFilename c3)⟩ (([] ++ [c1]) ++ [c2]) h3 (by omega)]
    rw [downloadLoop_netFail_cont v o now c5 [c6] (0 + 1 + 1 + 1 + 1) (0 + 1)
      ⟨store', writeFile st.fs (candidateFilename c3)⟩ ((([] ++ [c1]) ++ [c2]) ++ [c4])
      h4 (by omega)]
    rw [downloadLoop_netFail_trip v o now c6 [] (0 + 1 + 1 + 1 + 1 + 1) (0 + 1 + 1)
      ⟨store', writeFile st.fs (candidateFilename c3)⟩
      (((([] ++ [c1]) ++ [c2]) ++ [c4]) ++ [c5]) h5 (by omega)]
    simp

/-- Witness for claim C3: four all-new candidates with three consecutive
network failures trip the breaker with the fourth untouched. -/
theorem circuit_breaker_spec_witness :
    download_images .root 10 7 (fun _ => .netFail) (fun _ => true)
        [⟨"ua", "ha"⟩, ⟨"ub", "hb"⟩, ⟨"uc", "hc"⟩, ⟨"ud", "hd"⟩] ⟨⟨[], 0⟩, []⟩ =
      .circuit ⟨⟨[], 0⟩, []⟩ [⟨"ua", "ha"⟩, ⟨"ub", "hb"⟩, ⟨"uc", "hc"⟩] :=
  (circuit_breaker_spec .root).2.2.2.1 10 7 (fun _ => .netFail) (fun _ => true)
    ⟨"ua", "ha"⟩ ⟨"ub", "hb"⟩ ⟨"uc", "hc"⟩ ⟨"ud", "hd"⟩ ⟨⟨[], 0⟩, []⟩
    (by decide) (by decide) rfl rfl rfl

/-! ## Claim C4: store-insert failure after a successful file write -/

/-- Claim C4 (amended): in the src revision a row-insertion failure after a
successful file write is an isolated partial failure: the candidate is
recorded as failed, the consecutive-failure counter is not incremented, the
batch continues with the next candidate, and the file stays on disk with no
corresponding row.  The scenario conjunct runs a database failure, two
network failures and a success to completion: the batch never aborts even
though three failures are consecutive, because the database failure did not
count toward the threshold; the first candidate's file is on disk while its
hash has no row. -/
theorem store_insert_failure_isolated :
    (∀ (o : Nat → DLOutcome) (now : Nat) (c : Candidate) (cs : List Candidate)
        (i consec : Nat) (st : DLState) (failed : List Candidate),
      o i = .dbFail →
      downloadLoop .srcv o now (c :: cs) i consec st failed =
        downloadLoop .srcv o now cs (i + 1) consec
          ⟨st.store, writeFile st.fs (candidateFilename c)⟩ (failed ++ [c])) ∧
    (∀ (limit now : Nat) (o : Nat → DLOutcome) (fsOk : String → Bool)
        (c1 c2 c3 c4 : Candidate) (st : DLState) (store' : Store),
      (∀ c ∈ [c1, c2, c3, c4], is_image_downloaded st.store c.hash = false) →
      ¬ (limit < get_image_count st.store + 4) →
      o 0 = .dbFail → o 1 = .netFail → o 2 = .netFail → o 3 = .ok →
      add_image st.store c4.hash (candidateFilename c4) c4.url now = .ok store' →
      c4.hash ≠ c1.hash →
      download_images .srcv limit now o fsOk [c1, c2, c3, c4] st =
        .done ⟨store', writeFile (writeFile st.fs (candidateFilename c1))
          (candidateFilename c4)⟩ [c1, c2, c3] ∧
      is_image_downloaded store' c1.hash = false) := by
  refine ⟨downloadLoop_dbFail_srcv, ?_⟩
  intro limit now o fsOk c1 c2 c3 c4 st store' hnew hcap h0 h1 h2 h3 hadd hne41
  have hfil : [c1, c2, c3, c4].filter
      (fun img => !(is_image_downloaded st.store img.hash)) = [c1, c2, c3, c4] := by
    rw [List.filter_eq_self]
    intro a ha
    simp [hnew a ha]
  constructor
  · rw [download_images_eq_loop .srcv limit now o fsOk [c1, c2, c3, c4] st
      (by rw [hfil]; simp) (by rw [hfil]; simpa using hcap), hfil]
    rw [downloadLoop_dbFail_srcv o now c1 [c2, c3, c4] 0 0 st [] h0]
    rw [downloadLoop_netFail_cont .srcv o now c2 [c3, c4] (0 + 1) 0
      ⟨st.store, writeFile st.fs (candidateFilename c1)⟩ ([] ++ [c1]) h1 (by omega)]
    rw [downloadLoop_netFail_cont .srcv o now c3 [c4] (0 + 1 + 1) (0 + 1)
      ⟨st.store, writeFile st.fs (candidateFilename c1)⟩ (([] ++ [c1]) ++ [c2])
      h2 (by omega)]
    rw [downloadLoop_ok_step .srcv o now c4 [] (0 + 1 + 1 + 1) (0 + 1 + 1)
      ⟨st.store, writeFile st.fs (candidateFilename c1)⟩
      ((([] ++ [c1]) ++ [c2]) ++ [c3]) store' h3 hadd]
    rw [downloadLoop_nil]
    simp
  · rw [is_image_downloaded_add st.store c4.hash _ _ now store' hadd c1.hash,
      hnew c1 (by simp)]
    simp [hne41]

/-- Witness for claim C4: concrete four-candidate batch with a database
failure on the first candidate completes without tripping the breaker. -/
theorem store_insert_failure_isolated_witness :
    download_images .srcv 10 7
        (fun i => if i = 0 then .dbFail else if i = 3 then .ok else .netFail)
        (fun _ => true)
        [⟨"ua", "ha"⟩, ⟨"ub", "hb"⟩, ⟨"uc", "hc"⟩, ⟨"ud", "hd"⟩] ⟨⟨[], 0⟩, []⟩ =
      .done ⟨⟨[⟨0, "hd", "hd", "ud", 7⟩], 1⟩, ["ha", "hd"]⟩
        [⟨"ua", "ha"⟩, ⟨"ub", "hb"⟩, ⟨"uc", "hc"⟩] ∧
    is_image_downloaded ⟨[⟨0, "hd", "hd", "ud", 7⟩], 1⟩ "ha" = false :=
  store_insert_failure_isolated.2 10 7
    (fun i => if i = 0 then .dbFail else if i = 3 then .ok else .netFail)
    (fun _ => true) ⟨"ua", "ha"⟩ ⟨"ub", "hb"⟩ ⟨"uc", "hc"⟩ ⟨"ud", "hd"⟩
    ⟨⟨[], 0⟩, []⟩ ⟨[⟨0, "hd", "hd", "ud", 7⟩], 1⟩
    (by decide) (by decide) rfl rfl rfl rfl rfl (by decide)

/-- Counterexample to claim C4 as stated of the root revision: in root
photoframe.py the store error after a successful file write is not caught
inside download_images, so the batch aborts and the second candidate is never
attempted (its file is not written and its row is not inserted). -/
theorem store_insert_failure_isolated_cex :
    download_images .root 10 7 (fun i => if i = 0 then .dbFail else .ok)
        (fun _ => true) [⟨"ua", "ha"⟩, ⟨"ub", "hb"⟩] ⟨⟨[], 0⟩, []⟩ =
      .dbError ⟨⟨[], 0⟩, ["ha"]⟩ [] ∧
    is_image_downloaded ⟨[], 0⟩ "hb" = false ∧
    ("hb" ∈ (["ha"] : List String)) = False := by
  refine ⟨by decide, by decide, by simp⟩

/-! ## Claim C2: capacity management -/

theorem is_image_downloaded_filter_false (rows : List Row) (p : Row → Bool)
    (g : String) (h : rows.any (fun r => r.hash == g) = false) :
    (rows.filter p).any (fun r => r.hash == g) = false := by
  rw [Bool.eq_false_iff]
  intro hc
  rcases List.any_eq_true.mp hc with ⟨r, hr, hrg⟩
  have h2 : rows.any (fun r => r.hash == g) = true :=
    List.any_eq_true.mpr ⟨r, List.mem_of_mem_filter hr, hrg⟩
  rw [h] at h2
  cases h2

/-- Claim C2 (amended): when the capacity would be exceeded, download_images
evicts min(current + incoming - capacity, current) oldest rows before any
download (it cannot evict more rows than exist); with every download and
insertion succeeding the post-run count is min(current + incoming,
max(capacity, incoming)), hence at most the capacity whenever the batch of
new candidates itself fits within the capacity. -/
theorem capacity_bound_spec (limit now : Nat) (o : Nat → DLOutcome)
    (fsOk : String → Bool) (images : List Candidate) (st : DLState)
    (hid : st.store.rows.Pairwise (fun a b => a.id < b.id))
    (hfs : ∀ f, fsOk f = true)
    (ho : ∀ j, j < (images.filter
      (fun img => !(is_image_downloaded st.store img.hash))).length → o j = .ok)
    (hnd : ((images.filter (fun img => !(is_image_downloaded st.store img.hash))).map
      (fun c => c.hash)).Nodup)
    (hne : images.filter (fun img => !(is_image_downloaded st.store img.hash)) ≠ []) :
    ∃ st' : DLState,
      download_images .srcv limit now o fsOk images st = .done st' [] ∧
      st'.store.rows.length =
        min (st.store.rows.length + (images.filter
            (fun img => !(is_image_downloaded st.store img.hash))).length)
          (max limit (images.filter
            (fun img => !(is_image_downloaded st.store img.hash))).length) ∧
      ((images.filter (fun img => !(is_image_downloaded st.store img.hash))).length ≤
          limit → st'.store.rows.length ≤ limit) ∧
      (limit < st.store.rows.length + (images.filter
          (fun img => !(is_image_downloaded st.store img.hash))).length →
        ∃ (stEv : Store) (fsEv ds : List String),
          remove_oldest_images fsOk
            (st.store.rows.length + (images.filter
              (fun img => !(is_image_downloaded st.store img.hash))).length - limit)
            st.store st.fs = .ok stEv fsEv ds ∧
          st.store.rows.length - stEv.rows.length =
            min (st.store.rows.length + (images.filter
              (fun img => !(is_image_downloaded st.store img.hash))).length - limit)
              st.store.rows.length) := by
  have ho' : ∀ j, j < (images.filter
      (fun img => !(is_image_downloaded st.store img.hash))).length → o (0 + j) = .ok := by
    intro j hj
    rw [Nat.zero_add]
    exact ho j hj
  have hmemnew : ∀ c ∈ images.filter (fun img => !(is_image_downloaded st.store img.hash)),
      is_image_downloaded st.store c.hash = false := by
    intro c hc
    have := (List.mem_filter.mp hc).2
    rwa [Bool.not_eq_true'] at this
  by_cases hover : limit < st.store.rows.length + (images.filter
      (fun img => !(is_image_downloaded st.store img.hash))).length
  · rcases deleteFilesLoop_all_ok fsOk st.fs
        ((((isortTime st.store.rows).take (st.store.rows.length + (images.filter
          (fun img => !(is_image_downloaded st.store img.hash))).length - limit)).map
          (fun r => r.filename))) (fun f _ => hfs f) with ⟨fs', hloop⟩
    have hrm : remove_oldest_images fsOk
        (st.store.rows.length + (images.filter
          (fun img => !(is_image_downloaded st.store img.hash))).length - limit)
        st.store st.fs =
        .ok ⟨st.store.rows.filter (fun r =>
            !((((isortTime st.store.rows).take (st.store.rows.length + (images.filter
              (fun img => !(is_image_downloaded st.store img.hash))).length - limit)).map
              (fun s => s.id)).contains r.id)), st.store.nextId⟩ fs'
          (((isortTime st.store.rows).take (st.store.rows.length + (images.filter
            (fun img => !(is_image_downloaded st.store img.hash))).length - limit)).map
            (fun r => r.filename)) := by
      unfold remove_oldest_images
      rw [hloop]
    have hlenEv := removeSelected_length st.store.rows
      (st.store.rows.length + (images.filter
        (fun img => !(is_image_downloaded st.store img.hash))).length - limit) hid
    have hnew' : ∀ c ∈ images.filter (fun img => !(is_image_downloaded st.store img.hash)),
        is_image_downloaded
          (⟨st.store.rows.filter (fun r =>
            !((((isortTime st.store.rows).take (st.store.rows.length + (images.filter
              (fun img => !(is_image_downloaded st.store img.hash))).length - limit)).map
              (fun s => s.id)).contains r.id)), st.store.nextId⟩ : Store) c.hash = false := by
      intro c hc
      exact is_image_downloaded_filter_false st.store.rows _ c.hash (hmemnew c hc)
    rcases downloadLoop_all_ok .srcv o now
        (images.filter (fun img => !(is_image_downloaded st.store img.hash))) 0 0
        ⟨⟨st.store.rows.filter (fun r =>
            !((((isortTime st.store.rows).take (st.store.rows.length + (images.filter
              (fun img => !(is_image_downloaded st.store img.hash))).length - limit)).map
              (fun s => s.id)).contains r.id)), st.store.nextId⟩, fs'⟩ []
        ho' hnd hnew' with ⟨st', hloop2, hlen2⟩
    refine ⟨st', ?_, ?_, ?_, ?_⟩
    · rw [download_images_eq_evict_srcv limit now o fsOk images st _ fs' _ hne hover hrm]
      exact hloop2
    · rw [hlen2]
      simp only [hlenEv]
      omega
    · intro hle
      rw [hlen2]
      simp only [hlenEv]
      omega
    · intro _
      refine ⟨_, fs', _, hrm, ?_⟩
      simp only [hlenEv]
      omega
  · have hnocap : ¬ (limit < get_image_count st.store + (images.filter
        (fun img => !(is_image_downloaded st.store img.hash))).length) := hover
    rcases downloadLoop_all_ok .srcv o now
        (images.filter (fun img => !(is_image_downloaded st.store img.hash))) 0 0 st []
        ho' hnd hmemnew with ⟨st', hloop2, hlen2⟩
    refine ⟨st', ?_, ?_, ?_, ?_⟩
    · rw [download_images_eq_loop .srcv limit now o fsOk images st hne hnocap]
      exact hloop2
    · rw [hlen2]
      omega
    · intro hle
      rw [hlen2]
      omega
    · intro h
      exact absurd h hover

/-- Witness for claim C2: with one stored row, capacity two and two new
candidates, the run succeeds and the post-run count respects the capacity. -/
theorem capacity_bound_spec_witness :
    ∃ st' : DLState,
      download_images .srcv 2 7 (fun _ => .ok) (fun _ => true)
          [⟨"ub", "hb"⟩, ⟨"uc", "hc"⟩] ⟨⟨[⟨0, "hx", "fx", "ux", 0⟩], 1⟩, ["fx"]⟩ =
        .done st' [] ∧ st'.store.rows.length ≤ 2 := by
  rcases capacity_bound_spec 2 7 (fun _ => .ok) (fun _ => true)
      [⟨"ub", "hb"⟩, ⟨"uc", "hc"⟩] ⟨⟨[⟨0, "hx", "fx", "ux", 0⟩], 1⟩, ["fx"]⟩
      (by decide) (fun f => rfl) (fun j hj => rfl) (by decide) (by decide) with
    ⟨st', hdl, hlen, hcap, hev⟩
  exact ⟨st', hdl, hcap (by decide)⟩

/-- Counterexample to claim C2 as stated: with an empty store, capacity 1 and
two successfully downloading new candidates, eviction removes nothing (it
cannot evict current + incoming - capacity = 1 row from an empty table) and
the post-run count is 2, exceeding the capacity. -/
theorem capacity_bound_cex :
    download_images .srcv 1 7 (fun _ => .ok) (fun _ => true)
        [⟨"https://h/b.png", "hb"⟩, ⟨"https://h/c.png", "hc"⟩] ⟨⟨[], 0⟩, []⟩ =
      .done ⟨⟨[⟨0, "hb", "hb.png", "https://h/b.png", 7⟩,
               ⟨1, "hc", "hc.png", "https://h/c.png", 7⟩], 2⟩,
             ["hb.png", "hc.png"]⟩ [] ∧
    ¬ ((2 : Nat) ≤ 1) := by
  exact ⟨by decide, by decide⟩

/-! ## Claim C9: idempotence of the download phase -/

/-- Claim C9 (amended): running download_images twice with the same candidate
set is a no-op the second time, provided the first run succeeded for every
candidate (no failure recorded) and the first run's eviction removed no row
whose hash is among the candidates (every candidate hash already stored
before the first run is still stored after it).  The second invocation then
filters out every candidate, performs no download, eviction or insertion,
and returns its input state unchanged, whatever its oracles are. -/
theorem download_idempotent (limit limit2 now now2 : Nat) (o o2 : Nat → DLOutcome)
    (fsOk fsOk2 : String → Bool) (images : List Candidate) (st st1 : DLState)
    (h1 : download_images .srcv limit now o fsOk images st = .done st1 [])
    (h2 : ∀ r ∈ st.store.rows, r.hash ∈ images.map (fun c => c.hash) →
      is_image_downloaded st1.store r.hash = true) :
    download_images .srcv limit2 now2 o2 fsOk2 images st1 = .done st1 [] := by
  apply download_images_eq_noop
  intro c hc
  by_cases hcs : is_image_downloaded st.store c.hash = true
  · rcases List.any_eq_true.mp hcs with ⟨r, hr, hrg⟩
    have hrg' : r.hash = c.hash := by simpa using hrg
    have hres := h2 r hr (by rw [hrg']; exact List.mem_map_of_mem (fun c => c.hash) hc)
    rwa [hrg'] at hres
  · have hcf : is_image_downloaded st.store c.hash = false := Bool.eq_false_iff.mpr hcs
    have hcnew : c ∈ images.filter (fun img => !(is_image_downloaded st.store img.hash)) :=
      List.mem_filter.mpr ⟨hc, by rw [hcf]; rfl⟩
    unfold download_images at h1
    split at h1
    · next hemp =>
      rw [List.isEmpty_iff] at hemp
      rw [hemp] at hcnew
      cases hcnew
    · split at h1
      · split at h1
        · exact downloadLoop_done_nofail_added .srcv o now _ _ _ _ _ _ h1 c hcnew
        · cases h1
        · cases h1
      · exact downloadLoop_done_nofail_added .srcv o now _ _ _ _ _ _ h1 c hcnew

/-- Witness for claim C9: a single new candidate downloaded into an empty
store; a second call with any oracles is a no-op. -/
theorem download_idempotent_witness :
    download_images .srcv 5 9 (fun _ => .netFail) (fun _ => false) [⟨"u", "h"⟩]
        ⟨⟨[⟨0, "h", "h", "u", 7⟩], 1⟩, ["h"]⟩ =
      .done ⟨⟨[⟨0, "h", "h", "u", 7⟩], 1⟩, ["h"]⟩ [] :=
  download_idempotent 5 5 7 9 (fun _ => .ok) (fun _ => .netFail)
    (fun _ => true) (fun _ => false) [⟨"u", "h"⟩] ⟨⟨[], 0⟩, []⟩
    ⟨⟨[⟨0, "h", "h", "u", 7⟩], 1⟩, ["h"]⟩ (by decide) (by decide)

/-- Counterexample to claim C9 as stated: the first invocation succeeds for
every candidate, but its eviction removes the row of a candidate that was
filtered out as already downloaded; the second invocation with the same
candidate set then treats that candidate as new, evicts another row and
downloads it again, instead of being a no-op. -/
theorem download_idempotent_cex :
    download_images .srcv 2 7 (fun _ => .ok) (fun _ => true)
        [⟨"ux", "hx"⟩, ⟨"ub", "hb"⟩, ⟨"uc", "hc"⟩]
        ⟨⟨[⟨0, "hx", "x.png", "ux", 0⟩], 1⟩, ["x.png"]⟩ =
      .done ⟨⟨[⟨1, "hb", "hb", "ub", 7⟩, ⟨2, "hc", "hc", "uc", 7⟩], 3⟩, ["hb", "hc"]⟩ [] ∧
    [⟨"ux", "hx"⟩, ⟨"ub", "hb"⟩, ⟨"uc", "hc"⟩].filter
        (fun (c : Candidate) => !(is_image_downloaded
          (⟨[⟨1, "hb", "hb", "ub", 7⟩, ⟨2, "hc", "hc", "uc", 7⟩], 3⟩ : Store) c.hash)) =
      [⟨"ux", "hx"⟩] ∧
    download_images .srcv 2 9 (fun _ => .ok) (fun _ => true)
        [⟨"ux", "hx"⟩, ⟨"ub", "hb"⟩, ⟨"uc", "hc"⟩]
        ⟨⟨[⟨1, "hb", "hb", "ub", 7⟩, ⟨2, "hc", "hc", "uc", 7⟩], 3⟩, ["hb", "hc"]⟩ =
      .done ⟨⟨[⟨2, "hc", "hc", "uc", 7⟩, ⟨3, "hx", "hx", "ux", 9⟩], 4⟩, ["hc", "hx"]⟩ [] := by
  exact ⟨by decide, by decide, by decide⟩

/-! ## Claims C1 and C8: the orchestrator and the watermark -/

/-- Claim C1 (amended): in the src revision of main, a download phase that
trips the circuit breaker is caught around download_images and the run still
proceeds to the commit step: the persisted watermark equals the run's commit
time.  (In the root revision the SystemError reaches the top-level handler
and the watermark is not written; see the counterexample.) -/
theorem circuit_breaker_still_commits (env : RunEnv) (st : PFState)
    (tps : List Topic) (dl : DLState) (fl : List Candidate)
    (hresp : get_tagged_topics env.resp st.watermark = .ok tps)
    (hne : tps ≠ [])
    (hdl : download_images .srcv env.imageLimit env.now env.outcome env.fsOk
      (process_topics env.batchSize env.contents tps) ⟨st.store, st.fs⟩ = .circuit dl fl) :
    mainRun .srcv env st = (⟨some env.now, dl.store, dl.fs⟩, .committed) := by
  unfold mainRun
  simp only [hresp]
  rw [if_neg (by simpa [List.isEmpty_iff] using hne)]
  have himgs : process_topics env.batchSize env.contents tps ≠ [] := by
    intro hemp
    rw [hemp, download_images_eq_noop .srcv _ _ _ _ [] _
      (by intro c hc; cases hc)] at hdl
    cases hdl
  rw [if_neg (by simpa [List.isEmpty_iff] using himgs), hdl]
  rfl

/-- The per-run watermark characterization: a run either commits and writes
the clock reading, or does not commit and leaves the watermark untouched. -/
theorem mainRun_watermark (v : Variant) (env : RunEnv) (st : PFState) :
    ((mainRun v env st).2 = .committed ∧
      (mainRun v env st).1.watermark = some env.now) ∨
    ((mainRun v env st).2 ≠ .committed ∧
      (mainRun v env st).1.watermark = st.watermark) := by
  unfold mainRun
  split
  · right; exact ⟨fun h => RunExit.noConfusion h, rfl⟩
  · split
    · right; exact ⟨fun h => RunExit.noConfusion h, rfl⟩
    · split
      · right; exact ⟨fun h => RunExit.noConfusion h, rfl⟩
      · split
        · left; exact ⟨rfl, rfl⟩
        · split
          · right; exact ⟨fun h => RunExit.noConfusion h, rfl⟩
          · left; exact ⟨rfl, rfl⟩
        · right; exact ⟨fun h => RunExit.noConfusion h, rfl⟩
        · right; exact ⟨fun h => RunExit.noConfusion h, rfl⟩

/-- Claim C8: under a clock that has not gone backwards past the stored
watermark, the watermark never decreases across a run: a committed run writes
the commit-time clock reading, which is at least the pre-run value, and any
non-committed outcome (discovery or decode abort, the no-topics and no-images
early exits, and a download abort) leaves the watermark exactly unchanged. -/
theorem watermark_monotone (v : Variant) (env : RunEnv) (st st' : PFState)
    (ex : RunExit) (hrun : mainRun v env st = (st', ex))
    (hclock : ∀ w, st.watermark = some w → w ≤ env.now) :
    (ex = .committed → st'.watermark = some env.now ∧
      (∀ w, st.watermark = some w → ∃ w', st'.watermark = some w' ∧ w ≤ w')) ∧
    (ex ≠ .committed → st'.watermark = st.watermark) := by
  have h := mainRun_watermark v env st
  rw [hrun] at h
  rcases h with ⟨hc, hw⟩ | ⟨hc, hw⟩
  · refine ⟨fun _ => ⟨hw, fun w hwm => ⟨env.now, hw, hclock w hwm⟩⟩, fun hne => ?_⟩
    exact absurd hc hne
  · exact ⟨fun hcom => absurd hcom hc, fun _ => hw⟩

/-- Witness for claim C1: the tripping run under the src revision commits the
watermark to the run's clock reading 20 (the pre-run value was 5). -/
theorem circuit_breaker_still_commits_witness :
    mainRun .srcv wEnv wState = (⟨some 20, ⟨[], 0⟩, []⟩, .committed) :=
  circuit_breaker_still_commits wEnv wState [wTopic] ⟨⟨[], 0⟩, []⟩
    [⟨wUrl wHashA, wHashA⟩, ⟨wUrl wHashB, wHashB⟩, ⟨wUrl wHashC, wHashC⟩]
    rfl (by decide) (by decide)

/-- Counterexample to claim C1 as stated of the root revision: the same
tripping run under the root main aborts with exit status 1 and the persisted
watermark keeps its pre-run value 5 instead of the commit time 20. -/
theorem circuit_breaker_still_commits_cex :
    download_images .root wEnv.imageLimit wEnv.now wEnv.outcome wEnv.fsOk
        (process_topics wEnv.batchSize wEnv.contents [wTopic])
        ⟨wState.store, wState.fs⟩ =
      .circuit ⟨⟨[], 0⟩, []⟩
        [⟨wUrl wHashA, wHashA⟩, ⟨wUrl wHashB, wHashB⟩, ⟨wUrl wHashC, wHashC⟩] ∧
    mainRun .root wEnv wState = (wState, .abortDownload) ∧
    wState.watermark = some 5 ∧ wEnv.now = 20 := by
  exact ⟨by decide, by decide, rfl, rfl⟩

/-- Witness for claim C8: a committed run writes watermark 20, at least the
pre-run value 5. -/
theorem watermark_monotone_witness :
    wStateDone.watermark = some 20 ∧
    (∀ w, wState.watermark = some w →
      ∃ w', wStateDone.watermark = some w' ∧ w ≤ w') :=
  (watermark_monotone .root wEnvOk wState wStateDone .committed (by decide)
    (by intro w hw
        injection hw with h
        rw [show wEnvOk.now = 20 from rfl]
        omega)).1 rfl

end PhotoFrame
